import Mathlib

/-!
Verification of `backfill_real_history.py` (recession-dashboard).

Shallow embedding conventions:
* Python `date` objects are modelled as `ℤ` (day ordinals); `timedelta(days=1)`
  is `+ 1` and `(end - start).days` is `end - start`.
* Python floats are modelled as `ℚ`; `round(x, 1)` (banker's rounding to one
  decimal place) is modelled exactly by `round1` below.
* `None` / optional indicator values are modelled by `Option ℚ`.
-/

/-- Floor of a rational, computed from its numerator and denominator. -/
def floorQ (q : ℚ) : ℤ := Int.fdiv q.num q.den

/-- Round a rational to the nearest integer, ties going to the even integer
(Python's `round` semantics). -/
def round_half_even (q : ℚ) : ℤ :=
  let n := floorQ q
  let r := q - n
  if r < 1/2 then n
  else if 1/2 < r then n + 1
  else if n % 2 = 0 then n else n + 1

/-- Model of Python's `round(x, 1)`: round to the nearest multiple of 1/10. -/
def round1 (q : ℚ) : ℚ := (round_half_even (10 * q) : ℚ) / 10

theorem floorQ_eq (q : ℚ) : floorQ q = ⌊q⌋ := by
  rw [Rat.floor_def, floorQ]
  exact Int.fdiv_eq_ediv _ (by exact_mod_cast Nat.zero_le q.den)

theorem round_half_even_ge (m : ℤ) (q : ℚ) (h : (m : ℚ) ≤ q) :
    m ≤ round_half_even q := by
  have hf : m ≤ floorQ q := by rw [floorQ_eq]; exact Int.le_floor.mpr h
  simp only [round_half_even]
  split_ifs <;> omega

theorem round_half_even_le (m : ℤ) (q : ℚ) (h : q ≤ (m : ℚ)) :
    round_half_even q ≤ m := by
  have hfl : floorQ q ≤ m := by
    rw [floorQ_eq]
    exact (Int.floor_le_floor h).trans_eq (Int.floor_intCast m)
  have hq : (floorQ q : ℚ) ≤ q := by rw [floorQ_eq]; exact Int.floor_le q
  simp only [round_half_even]
  split_ifs with h1 h2 h3
  · exact hfl
  · have hx : (floorQ q : ℚ) < (m : ℚ) := by linarith
    have : floorQ q < m := by exact_mod_cast hx
    omega
  · exact hfl
  · have hr : q - (floorQ q : ℚ) = 1/2 := le_antisymm (not_lt.mp h2) (not_lt.mp h1)
    have hx : (floorQ q : ℚ) < (m : ℚ) := by linarith
    have : floorQ q < m := by exact_mod_cast hx
    omega

theorem round_half_even_eq (n : ℤ) (q : ℚ) (h1 : (n : ℚ) - 1/2 < q)
    (h2 : q < (n : ℚ) + 1/2) : round_half_even q = n := by
  rcases le_or_lt (n : ℚ) q with hc | hc
  · have hfl : floorQ q = n := by
      rw [floorQ_eq]
      exact Int.floor_eq_iff.mpr ⟨hc, by linarith⟩
    simp only [round_half_even, hfl]
    rw [if_pos (by linarith)]
  · have hfl : floorQ q = n - 1 := by
      rw [floorQ_eq]
      exact Int.floor_eq_iff.mpr ⟨by push_cast; linarith, by push_cast; linarith⟩
    simp only [round_half_even, hfl]
    rw [if_neg (by push_cast; linarith), if_pos (by push_cast; linarith)]
    omega

theorem round1_ge (m : ℤ) (q : ℚ) (h : (m : ℚ) ≤ q) : (m : ℚ) ≤ round1 q := by
  have h10 : ((10 * m : ℤ) : ℚ) ≤ 10 * q := by push_cast; linarith
  have hb := round_half_even_ge (10 * m) (10 * q) h10
  rw [round1, le_div_iff₀ (by norm_num : (0:ℚ) < 10)]
  calc (m : ℚ) * 10 = ((10 * m : ℤ) : ℚ) := by push_cast; ring
    _ ≤ (round_half_even (10 * q) : ℚ) := by exact_mod_cast hb

theorem round1_le (m : ℤ) (q : ℚ) (h : q ≤ (m : ℚ)) : round1 q ≤ (m : ℚ) := by
  have h10 : 10 * q ≤ ((10 * m : ℤ) : ℚ) := by push_cast; linarith
  have hb := round_half_even_le (10 * m) (10 * q) h10
  rw [round1, div_le_iff₀ (by norm_num : (0:ℚ) < 10)]
  calc (round_half_even (10 * q) : ℚ) ≤ ((10 * m : ℤ) : ℚ) := by exact_mod_cast hb
    _ = (m : ℚ) * 10 := by push_cast; ring

theorem round1_int (n : ℤ) : round1 ((n : ℚ)) = (n : ℚ) := by
  rw [round1, round_half_even_eq (10 * n) (10 * (n : ℚ)) (by push_cast; linarith)
    (by push_cast; linarith)]
  push_cast
  field_simp

/-- Embedding of `compute_risk` from `backfill_real_history.py`.

Takes the nine (possibly absent) indicator readings and returns
`(risk_score, yield_curve_value)`, mirroring the Python statement by
statement: base risk 15.0; the yield-curve, unemployment, initial-claims,
GDP-growth, consumer-sentiment and credit-spread adjustments with the exact
thresholds and coefficients of the source; clamp to `[5, 95]`; then
`round(risk, 1)`.  (`industrial_prod` and `housing_starts` are accepted but
never read, exactly as in the source.) -/
def compute_risk (yield_10y yield_2y unemployment initial_claims
    gdp_growth industrial_prod consumer_sentiment
    credit_spread housing_starts : Option ℚ) : ℚ × Option ℚ :=
  let risk : ℚ := 15
  let yc : Option ℚ :=
    match yield_10y, yield_2y with
    | some a, some b => some (a - b)
    | _, _ => none
  let risk :=
    match yc with
    | some v =>
        if v < -(1/2) then risk + 25
        else if v < 0 then risk + |v| * 30
        else if v > 1/2 then risk - 5
        else risk
    | none => risk
  let risk :=
    match unemployment with
    | some u_rate =>
        if u_rate > 5 then risk + (u_rate - 5) * 8
        else if u_rate < 4 then risk - 3
        else risk
    | none => risk
  let risk :=
    match initial_claims with
    | some claims => if claims > 300000 then risk + (claims - 300000) / 10000 else risk
    | none => risk
  let risk :=
    match gdp_growth with
    | some gdp =>
        if gdp < 0 then risk + 15
        else if gdp < 2 then risk + (2 - gdp) * 5
        else risk
    | none => risk
  let risk :=
    match consumer_sentiment with
    | some cs =>
        if cs < 70 then risk + 10
        else if cs < 90 then risk + (90 - cs) / 4
        else risk
    | none => risk
  let risk :=
    match credit_spread with
    | some spread => if spread > 5/2 then risk + (spread - 5/2) * 8 else risk
    | none => risk
  let risk := max 5 (min 95 risk)
  (round1 risk, yc)

theorem compute_risk_fst (a b u ic g ip cs sp hs : Option ℚ) :
    ∃ r : ℚ, (compute_risk a b u ic g ip cs sp hs).1 = round1 (max 5 (min 95 r)) :=
  ⟨_, rfl⟩

/-- C1: for every combination of present-or-absent indicator inputs, the risk
score returned by `compute_risk` lies in the closed interval `[5, 95]` and is
a multiple of 1/10 (at most one decimal place of precision). -/
theorem c1_risk_bounded_one_decimal (a b u ic g ip cs sp hs : Option ℚ) :
    5 ≤ (compute_risk a b u ic g ip cs sp hs).1 ∧
      (compute_risk a b u ic g ip cs sp hs).1 ≤ 95 ∧
      ∃ n : ℤ, (compute_risk a b u ic g ip cs sp hs).1 = (n : ℚ) / 10 := by
  obtain ⟨r, hr⟩ := compute_risk_fst a b u ic g ip cs sp hs
  rw [hr]
  have h5 : (5 : ℚ) ≤ max 5 (min 95 r) := le_max_left _ _
  have h95 : max (5 : ℚ) (min 95 r) ≤ 95 := max_le (by norm_num) (min_le_left _ _)
  refine ⟨?_, ?_, round_half_even (10 * max 5 (min 95 r)), rfl⟩
  · have := round1_ge 5 (max 5 (min 95 r)) (by exact_mod_cast h5)
    exact_mod_cast this
  · have := round1_le 95 (max 5 (min 95 r)) (by exact_mod_cast h95)
    exact_mod_cast this

/-- C4: calling `compute_risk` with all nine inputs absent returns exactly the
clamped base score 15.0 (and no yield-curve value). -/
theorem c4_all_absent_base_score :
    compute_risk none none none none none none none none none = (15, none) := by
  have h : compute_risk none none none none none none none none none
      = (round1 (max 5 (min 95 15)), none) := rfl
  rw [h, min_eq_right (by norm_num : (15:ℚ) ≤ 95), max_eq_right (by norm_num : (5:ℚ) ≤ 15)]
  have h15 : round1 (15 : ℚ) = 15 := by
    have := round1_int 15
    exact_mod_cast this
  rw [h15]

/-- C5: yield-curve boundary behaviour.  With only the two yields present and
spread exactly `1/2`, no yield-curve branch fires and the score stays at the
base 15; with spread exactly `-(1/2)`, the `< -0.5` branch does not fire
(strict inequality) but the `< 0` branch does, contributing `|−0.5|·30 = 15`
for a score of 30. -/
theorem c5_yield_curve_boundary (y10 y2 : ℚ) :
    (y10 - y2 = 1/2 →
      compute_risk (some y10) (some y2) none none none none none none none
        = (15, some (1/2))) ∧
    (y10 - y2 = -(1/2) →
      compute_risk (some y10) (some y2) none none none none none none none
        = (30, some (-(1/2)))) := by
  have h15 : round1 (15 : ℚ) = 15 := by
    have := round1_int 15
    exact_mod_cast this
  have h30 : round1 (30 : ℚ) = 30 := by
    have := round1_int 30
    exact_mod_cast this
  constructor
  · intro h
    have hc : compute_risk (some y10) (some y2) none none none none none none none
        = (round1 (max 5 (min 95
            (if y10 - y2 < -(1/2) then (15:ℚ) + 25
             else if y10 - y2 < 0 then 15 + |y10 - y2| * 30
             else if y10 - y2 > 1/2 then 15 - 5
             else 15))), some (y10 - y2)) := rfl
    rw [hc, h]
    norm_num
    exact h15
  · intro h
    have hc : compute_risk (some y10) (some y2) none none none none none none none
        = (round1 (max 5 (min 95
            (if y10 - y2 < -(1/2) then (15:ℚ) + 25
             else if y10 - y2 < 0 then 15 + |y10 - y2| * 30
             else if y10 - y2 > 1/2 then 15 - 5
             else 15))), some (y10 - y2)) := rfl
    rw [hc, h]
    norm_num
    rw [show |(1/2 : ℚ)| = 1/2 from abs_of_nonneg (by norm_num)]
    norm_num
    exact h30

/-- Witness for C5 at the concrete spreads `1 − 1/2 = 1/2` and
`1/2 − 1 = −1/2`. -/
theorem c5_yield_curve_boundary_witness :
    compute_risk (some 1) (some (1/2)) none none none none none none none
        = (15, some (1/2)) ∧
    compute_risk (some (1/2)) (some 1) none none none none none none none
        = (30, some (-(1/2))) :=
  ⟨(c5_yield_curve_boundary 1 (1/2)).1 (by norm_num),
   (c5_yield_curve_boundary (1/2) 1).2 (by norm_num)⟩

/-- C6: the worked example — yields 3.0/1.0, unemployment 6.0, claims 320000,
GDP −1, sentiment 60, credit spread 3.0, industrial production and housing
starts absent — scores 15 − 5 + 8 + 2 + 15 + 10 + 4 = 49.0. -/
theorem c6_worked_example :
    compute_risk (some 3) (some 1) (some 6) (some 320000) (some (-1)) none
      (some 60) (some 3) none = (49, some 2) := by
  have h49 : round1 (49 : ℚ) = 49 := by
    have := round1_int 49
    exact_mod_cast this
  have hc : compute_risk (some 3) (some 1) (some 6) (some 320000) (some (-1)) none
      (some 60) (some 3) none
      = (round1 (max 5 (min 95
          (let r1 :=
            if (3 - 1 : ℚ) < -(1/2) then (15:ℚ) + 25
            else if (3 - 1 : ℚ) < 0 then 15 + |(3 - 1 : ℚ)| * 30
            else if (3 - 1 : ℚ) > 1/2 then 15 - 5
            else 15
          let r2 :=
            if (6:ℚ) > 5 then r1 + (6 - 5) * 8
            else if (6:ℚ) < 4 then r1 - 3
            else r1
          let r3 := if (320000:ℚ) > 300000 then r2 + (320000 - 300000) / 10000 else r2
          let r4 :=
            if (-1:ℚ) < 0 then r3 + 15
            else if (-1:ℚ) < 2 then r3 + (2 - (-1)) * 5
            else r3
          let r5 :=
            if (60:ℚ) < 70 then r4 + 10
            else if (60:ℚ) < 90 then r4 + (90 - 60) / 4
            else r4
          if (3:ℚ) > 5/2 then r5 + (3 - 5/2) * 8 else r5))), some (3 - 1)) := rfl
  rw [hc]
  norm_num
  exact h49

/-- C7: `industrial_prod` and `housing_starts` are dead inputs — two calls to
`compute_risk` agreeing on the other seven indicators return identical
`(risk score, yield-curve spread)` results whatever those two inputs are. -/
theorem c7_reserved_inputs_noninterference (a b u ic g cs sp : Option ℚ)
    (ip₁ ip₂ hs₁ hs₂ : Option ℚ) :
    compute_risk a b u ic g ip₁ cs sp hs₁ = compute_risk a b u ic g ip₂ cs sp hs₂ :=
  rfl

/-! ## Forward-fill cursor (`cursors` / `get_value` in `build_daily_history`) -/

/-- One per-indicator cursor: the dict `{"obs": obs, "idx": 0, "current": None}`
of the source. `obs` is the fetched observation list, `idx` the next unconsumed
index, `current` the last carried value (absent until the first observation is
consumed). -/
structure Cursor where
  obs : List (ℤ × ℚ)
  idx : ℕ
  current : Option ℚ

/-- The while-loop of `get_value`: starting from the unconsumed suffix of the
observation list, consume entries while their date is ≤ the query date,
updating the carried value; return how many entries were consumed and the new
carried value. -/
def advance : List (ℤ × ℚ) → Option ℚ → ℤ → ℕ × Option ℚ
  | [], current, _ => (0, current)
  | o :: rest, current, date =>
    if o.1 ≤ date then
      let r := advance rest (some o.2) date
      (r.1 + 1, r.2)
    else (0, current)

/-- Embedding of `get_value`: advance the cursor while the observation date at
the index is ≤ `date`, store the updated index and carried value back into the
cursor, and return the (possibly absent) carried value. -/
def get_value (c : Cursor) (date : ℤ) : Cursor × Option ℚ :=
  let r := advance (c.obs.drop c.idx) c.current date
  (⟨c.obs, c.idx + r.1, r.2⟩, r.2)

/-- Query a cursor with a sequence of dates, threading the mutated state. -/
def runQueries : Cursor → List ℤ → List (Option ℚ)
  | _, [] => []
  | c, d :: ds => (get_value c d).2 :: runQueries (get_value c d).1 ds

/-- The specified answer of a value-as-of query: the value of the most recent
(last-listed) observation whose date is ≤ `d`, or absent if there is none. -/
def lastObsLe (obs : List (ℤ × ℚ)) (d : ℤ) : Option ℚ :=
  ((obs.filter fun p => decide (p.1 ≤ d)).getLast?).map Prod.snd

/-- The prefix of the series a cursor has consumed after a query at date `d`. -/
def twLe (obs : List (ℤ × ℚ)) (d : ℤ) : List (ℤ × ℚ) :=
  obs.takeWhile fun p => decide (p.1 ≤ d)

/-- Cursor state after querying dates up to `d` on a fresh cursor over `obs`. -/
def stateAt (obs : List (ℤ × ℚ)) (d : ℤ) : Cursor :=
  ⟨obs, (twLe obs d).length, ((twLe obs d).getLast?).map Prod.snd⟩

theorem option_map_or {α β : Type} (f : α → β) (a b : Option α) :
    (a.or b).map f = (a.map f).or (b.map f) := by
  cases a <;> rfl

theorem option_or_none {α : Type} (a : Option α) : a.or none = a := by
  cases a <;> rfl

theorem advance_restart (l : List (ℤ × ℚ)) (cur : Option ℚ) (d : ℤ) :
    advance (l.drop (advance l cur d).1) (advance l cur d).2 d
      = (0, (advance l cur d).2) := by
  induction l generalizing cur with
  | nil => simp [advance]
  | cons o rest ih =>
    by_cases h : o.1 ≤ d
    · simp only [advance, if_pos h, List.drop_succ_cons]
      exact ih (some o.2)
    · simp [advance, if_neg h]

theorem advance_eq (l : List (ℤ × ℚ)) (cur : Option ℚ) (d : ℤ) :
    advance l cur d = ((l.takeWhile fun p => decide (p.1 ≤ d)).length,
      (((l.takeWhile fun p => decide (p.1 ≤ d)).getLast?).map Prod.snd).or cur) := by
  induction l generalizing cur with
  | nil => simp [advance]
  | cons o rest ih =>
    by_cases h : o.1 ≤ d
    · rw [List.takeWhile_cons_of_pos (by simpa using h)]
      simp only [advance, if_pos h]
      rw [ih (some o.2)]
      rcases htw : rest.takeWhile (fun p => decide (p.1 ≤ d)) with _ | ⟨x, xs⟩
      · simp [htw, Option.or]
      · refine Prod.ext (by simp [htw]) ?_
        simp only [htw, List.getLast?_cons_cons]
        have hs : ((x :: xs).getLast?).isSome := by simp [List.getLast?_isSome]
        obtain ⟨y, hy⟩ := Option.isSome_iff_exists.mp hs
        simp [hy, Option.or]
    · rw [List.takeWhile_cons_of_neg (by simpa using h)]
      simp [advance, if_neg h, Option.or]

theorem twLe_eq_filter (obs : List (ℤ × ℚ)) (d : ℤ)
    (h : obs.Pairwise fun a b => a.1 ≤ b.1) :
    twLe obs d = obs.filter fun p => decide (p.1 ≤ d) := by
  induction obs with
  | nil => rfl
  | cons o rest ih =>
    rcases List.pairwise_cons.mp h with ⟨ho, hrest⟩
    by_cases hle : o.1 ≤ d
    · rw [twLe, List.takeWhile_cons_of_pos (by simpa using hle),
        List.filter_cons_of_pos (by simpa using hle)]
      rw [← twLe, ih hrest]
    · rw [twLe, List.takeWhile_cons_of_neg (by simpa using hle),
        List.filter_cons_of_neg (by simpa using hle)]
      symm
      rw [List.filter_eq_nil_iff]
      intro p hp
      simp only [decide_eq_true_eq]
      exact fun hpd => hle (le_trans (ho p hp) hpd)

theorem drop_length_takeWhile (obs : List (ℤ × ℚ)) (p : (ℤ × ℚ) → Bool) :
    obs.drop (obs.takeWhile p).length = obs.dropWhile p := by
  induction obs with
  | nil => rfl
  | cons o rest ih =>
    by_cases h : p o
    · rw [List.takeWhile_cons_of_pos h, List.dropWhile_cons_of_pos h,
        List.length_cons, List.drop_succ_cons]
      exact ih
    · rw [List.takeWhile_cons_of_neg h, List.dropWhile_cons_of_neg h]
      rfl

theorem twLe_append (obs : List (ℤ × ℚ)) (d0 d : ℤ) (h : d0 ≤ d) :
    twLe obs d = twLe obs d0
      ++ ((obs.dropWhile fun p => decide (p.1 ≤ d0)).takeWhile
            fun p => decide (p.1 ≤ d)) := by
  induction obs with
  | nil => rfl
  | cons o rest ih =>
    by_cases h0 : o.1 ≤ d0
    · have hd : o.1 ≤ d := le_trans h0 h
      rw [twLe, twLe, List.takeWhile_cons_of_pos (by simpa using hd),
        List.takeWhile_cons_of_pos (by simpa using h0),
        List.dropWhile_cons_of_pos (by simpa using h0)]
      rw [List.cons_append]
      exact congrArg _ ih
    · have ht0 : List.takeWhile (fun p => decide (p.1 ≤ d0)) (o :: rest) = [] :=
        List.takeWhile_cons_of_neg (by simpa using h0)
      have hd0 : List.dropWhile (fun p => decide (p.1 ≤ d0)) (o :: rest) = o :: rest :=
        List.dropWhile_cons_of_neg (by simpa using h0)
      rw [twLe, twLe, ht0, hd0, List.nil_append]

theorem get_value_stateAt (obs : List (ℤ × ℚ)) (d0 d : ℤ) (h : d0 ≤ d) :
    get_value (stateAt obs d0) d = (stateAt obs d, ((twLe obs d).getLast?).map Prod.snd) := by
  have hsplit := twLe_append obs d0 d h
  simp only [get_value, stateAt, twLe] at hsplit ⊢
  rw [drop_length_takeWhile, advance_eq, hsplit, List.length_append,
    List.getLast?_append, option_map_or]

theorem get_value_fresh (obs : List (ℤ × ℚ)) (d : ℤ) :
    get_value ⟨obs, 0, none⟩ d = (stateAt obs d, ((twLe obs d).getLast?).map Prod.snd) := by
  simp only [get_value, stateAt, twLe, List.drop_zero]
  rw [advance_eq, option_or_none, Nat.zero_add]

theorem runQueries_stateAt (obs : List (ℤ × ℚ)) :
    ∀ (qs : List ℤ) (d0 : ℤ), List.Chain' (· ≤ ·) (d0 :: qs) →
      runQueries (stateAt obs d0) qs
        = qs.map fun d => ((twLe obs d).getLast?).map Prod.snd := by
  intro qs
  induction qs with
  | nil => intro d0 _; rfl
  | cons d ds ih =>
    intro d0 hch
    rw [List.chain'_cons] at hch
    rw [runQueries, get_value_stateAt obs d0 d hch.1, List.map_cons]
    exact congrArg _ (ih d hch.2)

/-- C3: over a date-ascending series, a fresh cursor queried with a
non-decreasing sequence of dates answers every query with the most recent
observation dated ≤ the query date (absent if none); in particular every query
on an empty series is absent, and any query date strictly before every
observation is absent. -/
theorem c3_cursor_value_as_of (obs : List (ℤ × ℚ)) (qs : List ℤ)
    (hobs : obs.Pairwise fun a b => a.1 ≤ b.1)
    (hqs : List.Chain' (· ≤ ·) qs) :
    runQueries ⟨obs, 0, none⟩ qs = qs.map (lastObsLe obs)
    ∧ (∀ d : ℤ, lastObsLe ([] : List (ℤ × ℚ)) d = none)
    ∧ (∀ d : ℤ, (∀ p ∈ obs, d < p.1) → lastObsLe obs d = none) := by
  have hlast : ∀ d : ℤ, ((twLe obs d).getLast?).map Prod.snd = lastObsLe obs d := by
    intro d
    rw [lastObsLe, twLe_eq_filter obs d hobs]
  refine ⟨?_, fun d => rfl, ?_⟩
  · cases qs with
    | nil => rfl
    | cons d ds =>
      have hfun : (fun d => ((twLe obs d).getLast?).map Prod.snd) = lastObsLe obs :=
        funext hlast
      rw [runQueries, get_value_fresh, runQueries_stateAt obs ds d hqs, List.map_cons,
        hlast d, hfun]
  · intro d hd
    rw [lastObsLe]
    have hnil : obs.filter (fun p => decide (p.1 ≤ d)) = [] := by
      rw [List.filter_eq_nil_iff]
      intro p hp
      simp only [decide_eq_true_eq]
      exact not_le.mpr (hd p hp)
    rw [hnil]
    rfl

/-- Witness for C3: a two-observation series queried at dates
`[-1, 0, 1, 3]` (before the first observation, on it, between, after). -/
theorem c3_cursor_value_as_of_witness :
    runQueries ⟨[((0:ℤ), (1:ℚ)), (2, 3)], 0, none⟩ [-1, 0, 1, 3]
      = ([-1, 0, 1, 3] : List ℤ).map (lastObsLe [((0:ℤ), (1:ℚ)), (2, 3)]) :=
  (c3_cursor_value_as_of [((0:ℤ), (1:ℚ)), (2, 3)] [-1, 0, 1, 3]
    (by decide) (by norm_num [List.chain'_cons])).1

/-- C8: value-as-of is idempotent — repeating a `get_value` call with the same
date returns the same value and leaves the cursor state unchanged.  (This holds
for every cursor state, hence in particular for dates ≥ all previous queries.) -/
theorem c8_get_value_idempotent (c : Cursor) (d : ℤ) :
    get_value (get_value c d).1 d = get_value c d := by
  simp only [get_value]
  have hdrop : c.obs.drop (c.idx + (advance (c.obs.drop c.idx) c.current d).1)
      = (c.obs.drop c.idx).drop (advance (c.obs.drop c.idx) c.current d).1 := by
    rw [List.drop_drop, Nat.add_comm]
  rw [hdrop, advance_restart]
  simp

/-! ## History builder (`build_daily_history`) -/

/-- The nine fetched indicator series, keyed as in `series_map` of the source
(one observation list per indicator label). -/
structure SeriesMap where
  yield_10y : List (ℤ × ℚ)
  yield_2y : List (ℤ × ℚ)
  unemployment : List (ℤ × ℚ)
  initial_claims : List (ℤ × ℚ)
  gdp_growth : List (ℤ × ℚ)
  industrial_prod : List (ℤ × ℚ)
  consumer_sentiment : List (ℤ × ℚ)
  credit_spread : List (ℤ × ℚ)
  housing_starts : List (ℤ × ℚ)

/-- The per-indicator cursor dictionary built in step 2 of
`build_daily_history`. -/
structure CursorMap where
  yield_10y : Cursor
  yield_2y : Cursor
  unemployment : Cursor
  initial_claims : Cursor
  gdp_growth : Cursor
  industrial_prod : Cursor
  consumer_sentiment : Cursor
  credit_spread : Cursor
  housing_starts : Cursor

/-- `cursors[label] = {"obs": obs, "idx": 0, "current": None}` for each label. -/
def initCursors (s : SeriesMap) : CursorMap :=
  ⟨⟨s.yield_10y, 0, none⟩, ⟨s.yield_2y, 0, none⟩, ⟨s.unemployment, 0, none⟩,
   ⟨s.initial_claims, 0, none⟩, ⟨s.gdp_growth, 0, none⟩, ⟨s.industrial_prod, 0, none⟩,
   ⟨s.consumer_sentiment, 0, none⟩, ⟨s.credit_spread, 0, none⟩, ⟨s.housing_starts, 0, none⟩⟩

/-- One iteration of the day loop: query every cursor at day `d` and feed the
nine forward-filled values to `compute_risk`; returns the advanced cursors and
the day's risk score. -/
def stepDay (cs : CursorMap) (d : ℤ) : CursorMap × ℚ :=
  let r1 := get_value cs.yield_10y d
  let r2 := get_value cs.yield_2y d
  let r3 := get_value cs.unemployment d
  let r4 := get_value cs.initial_claims d
  let r5 := get_value cs.gdp_growth d
  let r6 := get_value cs.industrial_prod d
  let r7 := get_value cs.consumer_sentiment d
  let r8 := get_value cs.credit_spread d
  let r9 := get_value cs.housing_starts d
  (⟨r1.1, r2.1, r3.1, r4.1, r5.1, r6.1, r7.1, r8.1, r9.1⟩,
   (compute_risk r1.2 r2.2 r3.2 r4.2 r5.2 r6.2 r7.2 r8.2 r9.2).1)

/-- The `while d <= end_date` loop of `build_daily_history`: append
`(d, risk)` and advance to `d + 1`. -/
def buildLoop (cs : CursorMap) (d end_date : ℤ) : List (ℤ × ℚ) :=
  if d ≤ end_date then
    (d, (stepDay cs d).2) :: buildLoop (stepDay cs d).1 (d + 1) end_date
  else []
termination_by (end_date + 1 - d).toNat
decreasing_by omega

/-- Embedding of `build_daily_history` (after the fetch step, which is an
external collaborator): build one daily risk record per calendar day from
`start_date` to `end_date` inclusive. -/
def build_daily_history (start_date end_date : ℤ) (s : SeriesMap) : List (ℤ × ℚ) :=
  buildLoop (initCursors s) start_date end_date

theorem buildLoop_dates (end_date : ℤ) :
    ∀ (n : ℕ) (cs : CursorMap) (d : ℤ), (end_date + 1 - d).toNat = n →
      (buildLoop cs d end_date).map Prod.fst
        = (List.range n).map (fun i : ℕ => d + (i : ℤ)) := by
  intro n
  induction n with
  | zero =>
    intro cs d hn
    rw [buildLoop, if_neg (by omega)]
    rfl
  | succ n ih =>
    intro cs d hn
    have hd : d ≤ end_date := by omega
    rw [buildLoop, if_pos hd, List.map_cons, ih _ (d + 1) (by omega)]
    rw [List.range_succ_eq_map, List.map_cons, List.map_map]
    refine congrArg₂ _ (by norm_num) ?_
    refine List.map_congr_left fun a _ => ?_
    simp only [Function.comp_apply]
    push_cast
    ring

/-- C2: for `start_date ≤ end_date`, `build_daily_history` produces exactly
`(end_date − start_date) + 1` records whose dates are precisely the calendar
days `start_date, start_date + 1, …, end_date` in order — strictly ascending,
no duplicates, no gaps. -/
theorem c2_history_one_record_per_day (start_date end_date : ℤ) (s : SeriesMap)
    (h : start_date ≤ end_date) :
    (build_daily_history start_date end_date s).length
        = (end_date - start_date).toNat + 1
    ∧ (build_daily_history start_date end_date s).map Prod.fst
        = (List.range ((end_date - start_date).toNat + 1)).map
            (fun i : ℕ => start_date + (i : ℤ)) := by
  have hm := buildLoop_dates end_date ((end_date - start_date).toNat + 1)
    (initCursors s) start_date (by omega)
  refine ⟨?_, hm⟩
  have hl := congrArg List.length hm
  simpa [build_daily_history] using hl

/-- Witness for C2: three days from day 0 to day 2 over empty series. -/
theorem c2_history_one_record_per_day_witness :
    (build_daily_history 0 2 ⟨[], [], [], [], [], [], [], [], []⟩).length
        = ((2:ℤ) - 0).toNat + 1
    ∧ (build_daily_history 0 2 ⟨[], [], [], [], [], [], [], [], []⟩).map Prod.fst
        = (List.range (((2:ℤ) - 0).toNat + 1)).map (fun i : ℕ => (0:ℤ) + (i : ℤ)) :=
  c2_history_one_record_per_day 0 2 ⟨[], [], [], [], [], [], [], [], []⟩ (by decide)

/-- C10: called with `start_date` strictly after `end_date`, the builder's day
loop runs zero iterations and returns the empty record list (no error). -/
theorem c10_inverted_range_empty (start_date end_date : ℤ) (s : SeriesMap)
    (h : end_date < start_date) :
    build_daily_history start_date end_date s = [] := by
  unfold build_daily_history
  rw [buildLoop, if_neg (by omega)]

/-- Witness for C10: `start_date = 1 > 0 = end_date`. -/
theorem c10_inverted_range_empty_witness :
    build_daily_history 1 0 ⟨[], [], [], [], [], [], [], [], []⟩ = [] :=
  c10_inverted_range_empty 1 0 ⟨[], [], [], [], [], [], [], [], []⟩ (by decide)

/-! ## Series fetcher (`fetch_series_history`), response-parsing part -/

/-- The raw `value` field of one observation in a provider response:
absent/None, the `"."` placeholder sentinel, a numeric string (carrying the
number it parses to), or any other non-numeric string. -/
inductive RawVal where
  | missing : RawVal
  | dot : RawVal
  | num : ℚ → RawVal
  | malformed : RawVal

/-- The per-observation filter of `fetch_series_history`: skip when the value
is `None` or `"."`, skip when `float(val)` raises, otherwise keep the parsed
number. -/
def parseVal : RawVal → Option ℚ
  | RawVal.num v => some v
  | _ => none

/-- Embedding of the response-processing part of `fetch_series_history`: keep
the (date, value) pairs whose raw value parses, then sort ascending by date
(`observations.sort(key=lambda x: x[0])`, a stable sort). -/
def fetch_series_history (raw : List (ℤ × RawVal)) : List (ℤ × ℚ) :=
  (raw.filterMap fun p => (parseVal p.2).map fun v => (p.1, v)).mergeSort
    fun a b => decide (a.1 ≤ b.1)

/-- C9: for every well-formed provider response, the observation list returned
by `fetch_series_history` has dates in ascending order, is exactly (a
permutation-sort of) the entries whose raw value parses as a number — entries
with a missing or non-numeric value are dropped — and every returned
observation carries the (finite, rational) value of a numeric raw entry. -/
theorem c9_fetch_sorted_filtered (raw : List (ℤ × RawVal)) :
    (fetch_series_history raw).Pairwise (fun a b => a.1 ≤ b.1)
    ∧ (fetch_series_history raw).Perm
        (raw.filterMap fun p => (parseVal p.2).map fun v => (p.1, v))
    ∧ ∀ p ∈ fetch_series_history raw, (p.1, RawVal.num p.2) ∈ raw := by
  refine ⟨?_, List.mergeSort_perm _ _, ?_⟩
  · have hs := @List.sorted_mergeSort (ℤ × ℚ)
      (fun a b : ℤ × ℚ => decide (a.1 ≤ b.1))
      (fun a b c hab hbc => by
        simp only [decide_eq_true_eq] at *
        exact le_trans hab hbc)
      (fun a b => by
        simp only [Bool.or_eq_true, decide_eq_true_eq]
        exact le_total a.1 b.1)
      (raw.filterMap fun p => (parseVal p.2).map fun v => (p.1, v))
    exact hs.imp fun h => of_decide_eq_true h
  · intro p hp
    have hp' : p ∈ raw.filterMap fun p => (parseVal p.2).map fun v => (p.1, v) :=
      (List.mergeSort_perm _ _).subset hp
    obtain ⟨a, ha, hpa⟩ := List.mem_filterMap.mp hp'
    cases a2 : a.2 with
    | num v =>
      rw [a2] at hpa
      have hpa' : (a.1, v) = p := by simpa [parseVal] using hpa
      subst hpa'
      show (a.1, RawVal.num v) ∈ raw
      rw [← a2]
      exact ha
    | missing => rw [a2] at hpa; simp [parseVal] at hpa
    | dot => rw [a2] at hpa; simp [parseVal] at hpa
    | malformed => rw [a2] at hpa; simp [parseVal] at hpa
